import Mathlib

/-!
Verification of the consistency-check workload
(`fdbserver/workloads/ConsistencyCheck.actor.cpp`).

Each definition is a shallow embedding of one function or code block of the
source file; line numbers in the doc comments refer to that file.  Keys and
values are byte strings modelled as `List Nat`; machine integers of the
source are modelled as `Int`; an RPC reply that may be absent is an
`Option`.
-/

namespace CCheck

/-- Opaque byte string: keys and values of the store (`KeyRef`, `ValueRef`). -/
abbrev Bytes := List Nat

/-- Lexicographic order on byte strings, the order of `KeyRef::operator<`. -/
def bytesLt : Bytes → Bytes → Bool
  | [], [] => false
  | [], _ :: _ => true
  | _ :: _, [] => false
  | a :: as, b :: bs => if a < b then true else if b < a then false else bytesLt as bs

/-- One row of a `getKeyValues` reply (`KeyValueRef`). -/
structure KeyValueRef where
  key : Bytes
  value : Bytes
deriving DecidableEq

/-- Counters accumulated by the alignment diff of `checkDataConsistency`
(lines 769-782): the four totals and the last representative key of each
kind (a `KeyRef()` default is the empty byte string). -/
structure DiffCounts where
  currentUniques : Nat
  referenceUniques : Nat
  valueMismatches : Nat
  matchingKVPairs : Nat
  currentUniqueKey : Bytes
  referenceUniqueKey : Bytes
  valueMismatchKey : Bytes
deriving DecidableEq

/-- The zero-initialised counters of lines 769-782. -/
def initDiffCounts : DiffCounts := ⟨0, 0, 0, 0, [], [], []⟩

/-- The two-index alignment walk of lines 786-821, with the two suffixes
still to be consumed standing for the indices `currentI`/`referenceI`. -/
def alignmentDiffLoop : List KeyValueRef → List KeyValueRef → DiffCounts → DiffCounts
  | [], [], acc => acc
  | [], referenceKV :: refRest, acc =>
      alignmentDiffLoop [] refRest
        { acc with referenceUniqueKey := referenceKV.key,
                   referenceUniques := acc.referenceUniques + 1 }
  | currentKV :: curRest, [], acc =>
      alignmentDiffLoop curRest []
        { acc with currentUniqueKey := currentKV.key,
                   currentUniques := acc.currentUniques + 1 }
  | currentKV :: curRest, referenceKV :: refRest, acc =>
      if currentKV.key = referenceKV.key then
        if currentKV.value = referenceKV.value then
          alignmentDiffLoop curRest refRest
            { acc with matchingKVPairs := acc.matchingKVPairs + 1 }
        else
          alignmentDiffLoop curRest refRest
            { acc with valueMismatchKey := currentKV.key,
                       valueMismatches := acc.valueMismatches + 1 }
      else if bytesLt currentKV.key referenceKV.key then
        alignmentDiffLoop curRest (referenceKV :: refRest)
          { acc with currentUniqueKey := currentKV.key,
                     currentUniques := acc.currentUniques + 1 }
      else
        alignmentDiffLoop (currentKV :: curRest) refRest
          { acc with referenceUniqueKey := referenceKV.key,
                     referenceUniques := acc.referenceUniques + 1 }
termination_by current reference _ => current.length + reference.length

/-- The alignment diff over the current server's data and the reference
server's data, as run before the `ConsistencyCheck_DataInconsistent` event
is emitted (lines 786-834). -/
def alignmentDiff (current reference : List KeyValueRef) : DiffCounts :=
  alignmentDiffLoop current reference initDiffCounts

theorem alignmentDiffLoop_totals (current reference : List KeyValueRef) (acc : DiffCounts) :
    (alignmentDiffLoop current reference acc).matchingKVPairs
        + (alignmentDiffLoop current reference acc).valueMismatches
        + (alignmentDiffLoop current reference acc).currentUniques
      = acc.matchingKVPairs + acc.valueMismatches + acc.currentUniques + current.length
    ∧ (alignmentDiffLoop current reference acc).matchingKVPairs
        + (alignmentDiffLoop current reference acc).valueMismatches
        + (alignmentDiffLoop current reference acc).referenceUniques
      = acc.matchingKVPairs + acc.valueMismatches + acc.referenceUniques + reference.length := by
  induction current, reference, acc using alignmentDiffLoop.induct with
  | case1 acc => simp [alignmentDiffLoop]
  | case2 referenceKV refRest acc ih =>
      simp [alignmentDiffLoop] at ih ⊢
      omega
  | case3 currentKV curRest acc ih =>
      simp [alignmentDiffLoop] at ih ⊢
      omega
  | case4 currentKV curRest referenceKV refRest acc hk hv ih =>
      simp [alignmentDiffLoop, hk, hv] at ih ⊢
      omega
  | case5 currentKV curRest referenceKV refRest acc hk hv ih =>
      simp [alignmentDiffLoop, hk, hv] at ih ⊢
      omega
  | case6 currentKV curRest referenceKV refRest acc hk hlt ih =>
      simp [alignmentDiffLoop, hk, hlt] at ih ⊢
      omega
  | case7 currentKV curRest referenceKV refRest acc hk hlt ih =>
      simp [alignmentDiffLoop, hk, hlt] at ih ⊢
      omega

/-- C2.  The alignment diff counts each index pair exactly once: the matching
pairs, the value mismatches and one side's uniques add up to that side's
length (so when one side is exhausted, the remainder of the other side is
counted as unique to it), and diffing `[(k, va)]` against `[(k, vb)]` with
`va ≠ vb` yields one value mismatch and no matching pair. -/
theorem c2_alignment_diff_counts :
    (∀ current reference : List KeyValueRef,
        (alignmentDiff current reference).matchingKVPairs
            + (alignmentDiff current reference).valueMismatches
            + (alignmentDiff current reference).currentUniques = current.length
        ∧ (alignmentDiff current reference).matchingKVPairs
            + (alignmentDiff current reference).valueMismatches
            + (alignmentDiff current reference).referenceUniques = reference.length)
    ∧ (∀ k va vb : Bytes, va ≠ vb →
        (alignmentDiff [⟨k, va⟩] [⟨k, vb⟩]).valueMismatches = 1
        ∧ (alignmentDiff [⟨k, va⟩] [⟨k, vb⟩]).matchingKVPairs = 0
        ∧ (alignmentDiff [⟨k, va⟩] [⟨k, vb⟩]).currentUniques = 0
        ∧ (alignmentDiff [⟨k, va⟩] [⟨k, vb⟩]).referenceUniques = 0) := by
  constructor
  · intro current reference
    have h := alignmentDiffLoop_totals current reference initDiffCounts
    simpa [alignmentDiff, initDiffCounts] using h
  · intro k va vb hne
    simp [alignmentDiff, alignmentDiffLoop, initDiffCounts, hne]

/-- Witness: the C2 theorem at a concrete mismatching pair. -/
theorem c2_alignment_diff_counts_witness :
    (alignmentDiff [⟨[1], [2]⟩] [⟨[1], [3]⟩]).valueMismatches = 1
    ∧ (alignmentDiff [⟨[1], [2]⟩] [⟨[1], [3]⟩]).matchingKVPairs = 0 :=
  ⟨(c2_alignment_diff_counts.2 [1] [2] [3] (by decide)).1,
   (c2_alignment_diff_counts.2 [1] [2] [3] (by decide)).2.1⟩

/-- A `getKeyValues` reply: the rows and the continuation flag
(`GetKeyValuesReply`). -/
structure GetKeyValuesReply where
  data : List KeyValueRef
  more : Bool
deriving DecidableEq

/-- The failure messages `getKeyLocations` can record via `testFailure`. -/
inductive LocationFailure where
  | keyServerUnavailable     -- "Key server unavailable" (line 414)
  | inconsistentKeyServers   -- "Key servers inconsistent" (line 432)
deriving DecidableEq

/-- Outcome of the reply-scanning loop of `getKeyLocations`
(lines 404-435): a recorded failure followed by `return false`, a thrown
`all_alternatives_failed`, or normal completion with the reference reply
(the first present one; `none` when no reply was present). -/
inductive PageScanResult where
  | failed (msg : LocationFailure)
  | threw
  | ok (reference : Option GetKeyValuesReply)
deriving DecidableEq

/-- The loop of lines 404-435 over the replies of one page, one recursive
step per index `j`.  `firstValid` carries the reply of
`firstValidStorageServer` (`none` while that index is still `-1`); the
`j == keyValueFutures.size() - 1` test of line 419 is `rest.isEmpty`. -/
def pageScanLoop (performQuiescentChecks : Bool) :
    List (Option GetKeyValuesReply) → Option GetKeyValuesReply → PageScanResult
  | [], firstValid => .ok firstValid
  | none :: rest, firstValid =>
      if performQuiescentChecks then .failed .keyServerUnavailable
      else if firstValid.isNone && rest.isEmpty then .threw
      else pageScanLoop performQuiescentChecks rest firstValid
  | some reply :: rest, firstValid =>
      match firstValid with
      | none => pageScanLoop performQuiescentChecks rest (some reply)
      | some reference =>
          if reply.data ≠ reference.data ∨ reply.more ≠ reference.more then
            .failed .inconsistentKeyServers
          else pageScanLoop performQuiescentChecks rest (some reference)

/-- The scan of one page's replies, entered with no valid server seen yet. -/
def pageScan (performQuiescentChecks : Bool)
    (replies : List (Option GetKeyValuesReply)) : PageScanResult :=
  pageScanLoop performQuiescentChecks replies none

/-- The replies that are present, in order. -/
def presentReplies (replies : List (Option GetKeyValuesReply)) : List GetKeyValuesReply :=
  replies.filterMap id

/-- Some present reply differs (in `data` or `more`, hence as a whole) from
the first present reply, the reference. -/
def mismatchExists (replies : List (Option GetKeyValuesReply)) : Prop :=
  match presentReplies replies with
  | [] => False
  | r :: rs => ∃ s ∈ rs, s ≠ r

instance (replies : List (Option GetKeyValuesReply)) : Decidable (mismatchExists replies) := by
  unfold mismatchExists
  match presentReplies replies with
  | [] => exact inferInstanceAs (Decidable False)
  | r :: rs => exact inferInstanceAs (Decidable (∃ s ∈ rs, s ≠ r))

theorem pageScanLoop_ok_all_eq (q : Bool) (l : List (Option GetKeyValuesReply))
    (fv : Option GetKeyValuesReply) (ref : GetKeyValuesReply)
    (h : pageScanLoop q l fv = .ok (some ref)) :
    (∀ r : GetKeyValuesReply, some r ∈ l → r = ref)
      ∧ (∀ r0 : GetKeyValuesReply, fv = some r0 → r0 = ref) := by
  induction l generalizing fv with
  | nil =>
      simp [pageScanLoop] at h
      subst h
      exact ⟨by simp, fun r0 h0 => (Option.some.inj h0).symm⟩
  | cons o rest ih =>
      match o with
      | none =>
          by_cases hq : q = true
          · rw [pageScanLoop, if_pos hq] at h
            exact absurd h (by simp)
          · rw [pageScanLoop, if_neg hq] at h
            by_cases hg : (fv.isNone && rest.isEmpty) = true
            · rw [if_pos hg] at h
              exact absurd h (by simp)
            · rw [if_neg hg] at h
              obtain ⟨hmem, hfv⟩ := ih fv h
              refine ⟨fun r hr => ?_, hfv⟩
              rcases List.mem_cons.mp hr with h1 | h1
              · exact absurd h1.symm (by simp)
              · exact hmem r h1
      | some reply =>
          match fv with
          | none =>
              rw [pageScanLoop] at h
              obtain ⟨hmem, hfv⟩ := ih (some reply) h
              refine ⟨fun r hr => ?_, by simp⟩
              rcases List.mem_cons.mp hr with h1 | h1
              · injection h1.symm with h2
                exact h2 ▸ hfv reply rfl
              · exact hmem r h1
          | some reference =>
              rw [pageScanLoop] at h
              by_cases hd : reply.data ≠ reference.data ∨ reply.more ≠ reference.more
              · rw [if_pos hd] at h
                exact absurd h (by simp)
              · rw [if_neg hd] at h
                push_neg at hd
                have hreply : reply = reference := by
                  cases reply; cases reference
                  simp_all
                obtain ⟨hmem, hfv⟩ := ih (some reference) h
                have href : reference = ref := hfv reference rfl
                refine ⟨fun r hr => ?_, fun r0 h0 => by injection h0 with h0; exact h0 ▸ href⟩
                rcases List.mem_cons.mp hr with h1 | h1
                · injection h1.symm with h2
                  exact h2 ▸ hreply.trans href
                · exact hmem r h1

theorem pageScanLoop_mismatch_failed (q : Bool) (l : List (Option GetKeyValuesReply))
    (r0 : GetKeyValuesReply) (h : ∃ s : GetKeyValuesReply, some s ∈ l ∧ s ≠ r0) :
    (∃ m, pageScanLoop q l (some r0) = .failed m)
      ∧ (q = false → pageScanLoop false l (some r0) = .failed .inconsistentKeyServers) := by
  induction l with
  | nil => simp at h
  | cons o rest ih =>
      obtain ⟨s, hs, hne⟩ := h
      match o with
      | none =>
          have hsrest : some s ∈ rest := by
            rcases List.mem_cons.mp hs with h1 | h1
            · exact absurd h1.symm (by simp)
            · exact h1
          have ih' := ih ⟨s, hsrest, hne⟩
          constructor
          · by_cases hq : q = true
            · exact ⟨.keyServerUnavailable, by rw [pageScanLoop, if_pos hq]⟩
            · obtain ⟨m, hm⟩ := ih'.1
              refine ⟨m, ?_⟩
              rw [pageScanLoop, if_neg hq, if_neg (by simp)]
              exact hm
          · intro hq
            rw [pageScanLoop, if_neg (by simp), if_neg (by simp)]
            exact ih'.2 hq
      | some reply =>
          by_cases hd : reply.data ≠ r0.data ∨ reply.more ≠ r0.more
          · constructor
            · exact ⟨.inconsistentKeyServers, by rw [pageScanLoop, if_pos hd]⟩
            · intro _; rw [pageScanLoop, if_pos hd]
          · push_neg at hd
            have hreply : reply = r0 := by
              cases reply; cases r0
              simp_all
            have hsrest : some s ∈ rest := by
              rcases List.mem_cons.mp hs with h1 | h1
              · injection h1.symm with h2
                exact absurd (h2 ▸ hreply) hne
              · exact h1
            have ih' := ih ⟨s, hsrest, hne⟩
            constructor
            · obtain ⟨m, hm⟩ := ih'.1
              refine ⟨m, ?_⟩
              rw [pageScanLoop, if_neg (by push_neg; exact hd)]
              exact hm
            · intro hq
              rw [pageScanLoop, if_neg (by push_neg; exact hd)]
              exact ih'.2 hq

theorem pageScan_mismatch_failed (q : Bool) (replies : List (Option GetKeyValuesReply))
    (h : mismatchExists replies) :
    (∃ m, pageScan q replies = .failed m)
      ∧ (q = false → pageScan false replies = .failed .inconsistentKeyServers) := by
  induction replies with
  | nil => simp [mismatchExists, presentReplies] at h
  | cons o rest ih =>
      match o with
      | none =>
          have h' : mismatchExists rest := by
            simpa [mismatchExists, presentReplies] using h
          have hne : presentReplies rest ≠ [] := by
            intro hc
            rw [mismatchExists, hc] at h'
            exact h'
          have hrest : rest ≠ [] := by
            intro hc; exact hne (by simp [presentReplies, hc])
          have ih' := ih h'
          constructor
          · by_cases hq : q = true
            · exact ⟨.keyServerUnavailable, by rw [pageScan, pageScanLoop, if_pos hq]⟩
            · obtain ⟨m, hm⟩ := ih'.1
              refine ⟨m, ?_⟩
              rw [pageScan, pageScanLoop, if_neg hq,
                if_neg (by simp [List.isEmpty_iff, hrest])]
              exact hm
          · intro hq
            rw [pageScan, pageScanLoop, if_neg (by simp),
              if_neg (by simp [List.isEmpty_iff, hrest])]
            exact ih'.2 hq
      | some r =>
          have h' : ∃ s : GetKeyValuesReply, some s ∈ rest ∧ s ≠ r := by
            rw [mismatchExists] at h
            have hpr : presentReplies (some r :: rest) = r :: presentReplies rest := by
              simp [presentReplies]
            rw [hpr] at h
            obtain ⟨s, hs, hne⟩ := h
            refine ⟨s, ?_, hne⟩
            have hs' : s ∈ rest.filterMap id := by simpa [presentReplies] using hs
            obtain ⟨a, ha, hid⟩ := List.mem_filterMap.mp hs'
            have ha' : a = some s := hid
            exact ha' ▸ ha
          have := pageScanLoop_mismatch_failed q rest r h'
          constructor
          · exact ⟨this.1.choose, by rw [pageScan, pageScanLoop]; exact this.1.choose_spec⟩
          · intro hq
            have := (pageScanLoop_mismatch_failed false rest r h').2 rfl
            rw [pageScan, pageScanLoop]
            exact this

/-- C3 (amended).  A page whose present replies all match the reference is
the only way the scan completes normally: if the scan returns the reference
then every present reply equals it byte for byte (in `data` and `more`), and
if some present reply differs from the first present one the scan ends in a
recorded failure and `return false` — named "Key servers inconsistent" in a
non-quiescent run, while in a quiescent run a missing reply at an earlier
index may instead have recorded "Key server unavailable". -/
theorem c3_page_scan_sound :
    (∀ (q : Bool) (replies : List (Option GetKeyValuesReply)) (ref : GetKeyValuesReply),
        pageScan q replies = .ok (some ref) →
          ∀ r : GetKeyValuesReply, some r ∈ replies → r = ref)
    ∧ (∀ (q : Bool) (replies : List (Option GetKeyValuesReply)),
        mismatchExists replies → ∃ m, pageScan q replies = .failed m)
    ∧ (∀ replies : List (Option GetKeyValuesReply),
        mismatchExists replies →
          pageScan false replies = .failed .inconsistentKeyServers) := by
  refine ⟨fun q replies ref h => (pageScanLoop_ok_all_eq q replies none ref h).1,
    fun q replies h => (pageScan_mismatch_failed q replies h).1,
    fun replies h => (pageScan_mismatch_failed false replies h).2 rfl⟩

/-- C3 counterexample.  In a quiescent run with a missing reply at index 0
and two differing present replies after it, the scan records "Key server
unavailable", not "Key servers inconsistent", although a present reply
differs from the reference — so the claim's failure attribution does not
hold as stated. -/
theorem c3_counterexample :
    mismatchExists [none, some ⟨[⟨[1], [2]⟩], false⟩, some ⟨[], false⟩]
    ∧ pageScan true [none, some ⟨[⟨[1], [2]⟩], false⟩, some ⟨[], false⟩]
        = .failed .keyServerUnavailable
    ∧ pageScan true [none, some ⟨[⟨[1], [2]⟩], false⟩, some ⟨[], false⟩]
        ≠ .failed .inconsistentKeyServers := by
  refine ⟨by decide, by decide, by decide⟩

/-- C4.  A missing reply in a quiescent run is always the recorded failure
"Key server unavailable" (aborting the component); in a non-quiescent run
the scan throws `all_alternatives_failed` exactly when the page has replica
replies and every one of them is missing, and otherwise a missing reply is
tolerated: the scan just moves to the next reply. -/
theorem c4_missing_reply_policy :
    (∀ (rest : List (Option GetKeyValuesReply)) (fv : Option GetKeyValuesReply),
        pageScanLoop true (none :: rest) fv = .failed .keyServerUnavailable)
    ∧ (∀ replies : List (Option GetKeyValuesReply),
        pageScan false replies = .threw ↔
          replies ≠ [] ∧ ∀ r ∈ replies, r = none)
    ∧ (∀ (rest : List (Option GetKeyValuesReply)) (fv : Option GetKeyValuesReply),
        (fv ≠ none ∨ rest ≠ []) →
          pageScanLoop false (none :: rest) fv = pageScanLoop false rest fv) := by
  refine ⟨fun rest fv => by rw [pageScanLoop, if_pos rfl], fun replies => ?_, ?_⟩
  · have key : ∀ (l : List (Option GetKeyValuesReply)) (fv : Option GetKeyValuesReply),
        pageScanLoop false l fv = .threw ↔
          fv = none ∧ l ≠ [] ∧ ∀ r ∈ l, r = none := by
      intro l
      induction l with
      | nil => intro fv; simp [pageScanLoop]
      | cons o rest ih =>
          intro fv
          match o with
          | none =>
              rw [pageScanLoop, if_neg (by simp)]
              by_cases hg : (fv.isNone && rest.isEmpty) = true
              · rw [if_pos hg]
                simp only [Bool.and_eq_true, Option.isNone_iff_eq_none,
                  List.isEmpty_iff] at hg
                simp [hg.1, hg.2]
              · rw [if_neg hg, ih fv]
                simp only [Bool.and_eq_true, Option.isNone_iff_eq_none,
                  List.isEmpty_iff, not_and] at hg
                constructor
                · rintro ⟨h1, h2, h3⟩
                  exact ⟨h1, by simp, fun r hr => by
                    rcases List.mem_cons.mp hr with h4 | h4
                    · exact h4.symm ▸ rfl
                    · exact h3 r h4⟩
                · rintro ⟨h1, _, h3⟩
                  have hrest : rest ≠ [] := fun hc => (hg h1) hc
                  exact ⟨h1, hrest, fun r hr => h3 r (List.mem_cons_of_mem _ hr)⟩
          | some reply =>
              constructor
              · intro h
                match fv with
                | none =>
                    rw [pageScanLoop] at h
                    rw [ih (some reply)] at h
                    exact absurd h.1 (by simp)
                | some reference =>
                    rw [pageScanLoop] at h
                    by_cases hd : reply.data ≠ reference.data ∨ reply.more ≠ reference.more
                    · rw [if_pos hd] at h; exact absurd h (by simp)
                    · rw [if_neg hd] at h
                      rw [ih (some reference)] at h
                      exact absurd h.1 (by simp)
              · rintro ⟨_, _, h3⟩
                exact absurd (h3 (some reply) (by simp)) (by simp)
    rw [pageScan, key replies none]
    simp
  · intro rest fv h
    rw [pageScanLoop, if_neg (by simp)]
    rw [if_neg ?_]
    simp only [Bool.and_eq_true, Option.isNone_iff_eq_none, List.isEmpty_iff]
    rcases h with h | h
    · exact fun hc => h hc.1
    · exact fun hc => h hc.2

/-- The per-shard failures `checkDataConsistency` can record after the read
loop (lines 928-983). -/
inductive ShardFailure where
  | incorrectSampledEstimate   -- "Storage servers had incorrect sampled estimate" (line 939)
  | couldNotGetMetrics         -- "Could not get storage metrics from server" (line 947)
  | inaccurateShardEstimate    -- "Shard size is more than 7.0 std dev from estimate" (line 968)
  | invalidShardSize           -- "Shard size in quiescent database is too small/large" (line 981)
deriving DecidableEq

/-- The quiescent estimator loop of lines 933-951: walk the replicas'
estimates in order and stop at the first miss, recording which failure it
was.  `none` means the loop ran to the end without a failure. -/
def estimatedBytesCheck (sampledBytes : Int) : List Int → Option ShardFailure
  | [] => none
  | e :: es =>
      if 0 ≤ e ∧ e ≠ sampledBytes then some .incorrectSampledEstimate
      else if e < 0 then some .couldNotGetMetrics
      else estimatedBytesCheck sampledBytes es

/-- `hasValidEstimate` after the loop: it starts as
`estimatedBytes.size() > 0` (line 928) and is cleared by the first miss
(lines 941, 948). -/
def hasValidEstimateAfter (sampledBytes : Int) (estimatedBytes : List Int) : Bool :=
  decide (0 < estimatedBytes.length) && (estimatedBytesCheck sampledBytes estimatedBytes).isNone

theorem estimatedBytesCheck_append (sampledBytes : Int) (es es2 : List Int)
    (h : (estimatedBytesCheck sampledBytes es).isSome = true) :
    estimatedBytesCheck sampledBytes (es ++ es2) = estimatedBytesCheck sampledBytes es := by
  induction es with
  | nil => simp [estimatedBytesCheck] at h
  | cons e rest ih =>
      by_cases h1 : 0 ≤ e ∧ e ≠ sampledBytes
      · simp [estimatedBytesCheck, h1]
      · by_cases h2 : e < 0
        · simp [estimatedBytesCheck, h1, h2]
        · rw [estimatedBytesCheck, if_neg h1, if_neg h2] at h
          rw [List.cons_append, estimatedBytesCheck, if_neg h1, if_neg h2,
            estimatedBytesCheck, if_neg h1, if_neg h2]
          exact ih h

theorem estimatedBytesCheck_first_miss (sampledBytes : Int) (pre : List Int) (e : Int)
    (es : List Int) (hpre : ∀ x ∈ pre, 0 ≤ x ∧ x = sampledBytes) :
    (0 ≤ e ∧ e ≠ sampledBytes →
        estimatedBytesCheck sampledBytes (pre ++ e :: es) = some .incorrectSampledEstimate)
    ∧ (e < 0 →
        estimatedBytesCheck sampledBytes (pre ++ e :: es) = some .couldNotGetMetrics) := by
  induction pre with
  | nil =>
      constructor
      · intro he; rw [List.nil_append, estimatedBytesCheck, if_pos he]
      · intro he
        rw [List.nil_append, estimatedBytesCheck, if_neg (by omega), if_pos he]
  | cons x rest ih =>
      have hx := hpre x (by simp)
      have ih' := ih (fun y hy => hpre y (List.mem_cons_of_mem _ hy))
      constructor
      · intro he
        rw [List.cons_append, estimatedBytesCheck, if_neg (by omega), if_neg (by omega)]
        exact ih'.1 he
      · intro he
        rw [List.cons_append, estimatedBytesCheck, if_neg (by omega), if_neg (by omega)]
        exact ih'.2 he

/-- C5.  In the quiescent estimator loop, if every estimate before position
`j` is a nonnegative exact match, then a nonnegative estimate at `j` that
differs from the recomputed `sampledBytes` records "Storage servers had
incorrect sampled estimate" and a negative estimate records "Could not get
storage metrics from server"; either miss clears `hasValidEstimate`, and the
loop breaks at the first miss, so the replicas after it are never examined
(appending them changes nothing). -/
theorem c5_estimator_loop :
    (∀ (sampledBytes : Int) (pre : List Int) (e : Int) (es : List Int),
        (∀ x ∈ pre, 0 ≤ x ∧ x = sampledBytes) →
          (0 ≤ e ∧ e ≠ sampledBytes →
              estimatedBytesCheck sampledBytes (pre ++ e :: es)
                = some .incorrectSampledEstimate)
          ∧ (e < 0 →
              estimatedBytesCheck sampledBytes (pre ++ e :: es)
                = some .couldNotGetMetrics))
    ∧ (∀ (sampledBytes : Int) (es : List Int),
        (estimatedBytesCheck sampledBytes es).isSome = true →
          hasValidEstimateAfter sampledBytes es = false)
    ∧ (∀ (sampledBytes : Int) (es es2 : List Int),
        (estimatedBytesCheck sampledBytes es).isSome = true →
          estimatedBytesCheck sampledBytes (es ++ es2)
            = estimatedBytesCheck sampledBytes es) := by
  refine ⟨estimatedBytesCheck_first_miss,
    fun sampledBytes es h => ?_, estimatedBytesCheck_append⟩
  rw [hasValidEstimateAfter]
  rcases Option.isSome_iff_exists.mp h with ⟨f, hf⟩
  simp [hf]

/-- Witness: C5 at a concrete shard with `sampledBytes = 10` and estimates
`[10, 12, -1]` — the loop stops at the second replica with an
incorrect-estimate failure, whatever comes after. -/
theorem c5_estimator_loop_witness :
    estimatedBytesCheck 10 ([10] ++ 12 :: [-1]) = some .incorrectSampledEstimate
    ∧ hasValidEstimateAfter 10 [10, 12] = false
    ∧ estimatedBytesCheck 10 ([10, 12] ++ [-1]) = estimatedBytesCheck 10 [10, 12] :=
  ⟨(c5_estimator_loop.1 10 [10] 12 [-1] (by decide)).1 (by decide),
   c5_estimator_loop.2.1 10 [10, 12] (by decide),
   c5_estimator_loop.2.2 10 [10, 12] [-1] (by decide)⟩

/-- `int estimateError = abs(shardBytes - sampledBytes)` (line 958). -/
def estimateError (shardBytes sampledBytes : Int) : Int := |shardBytes - sampledBytes|

/-- `double failErrorNumStdDev = 7` (line 957). -/
def failErrorNumStdDev : ℚ := 7

/-- The statistical size check of lines 961-969.  `stdDev` stands for the
floating-point `sqrt(shardVariance)` of line 955, taken here as a given
rational; the comparison on line 961 is exact in the model. -/
def inaccurateEstimateCheck (sampledKeys : Nat) (shardBytes sampledBytes : Int)
    (stdDev : ℚ) : Bool :=
  decide (30 < sampledKeys)
    && decide (failErrorNumStdDev * stdDev < (estimateError shardBytes sampledBytes : ℚ))

/-- `ShardSizeBounds` restricted to the fields the checks read:
`min.bytes`, `max.bytes` and `permittedError.bytes`. -/
structure ShardSizeBounds where
  minBytes : Int
  maxBytes : Int
  permittedErrorBytes : Int
deriving DecidableEq

/-- The quiescent bounds check of lines 975-983; `beginInSystemKeyspace` is
`range.begin.startsWith(keyServersPrefix)`.  This is the only check of the
tail that ends with `return false`. -/
def invalidShardSizeCheck (canSplit : Bool) (sampledKeys : Nat)
    (performQuiescentChecks beginInSystemKeyspace : Bool)
    (sampledBytes firstKeySampledBytes : Int) (bounds : ShardSizeBounds) : Bool :=
  canSplit && decide (5 < sampledKeys) && performQuiescentChecks && !beginInSystemKeyspace
    && (decide (sampledBytes < bounds.minBytes - 3 * bounds.permittedErrorBytes)
        || decide (bounds.maxBytes + 3 * bounds.permittedErrorBytes
            < sampledBytes - firstKeySampledBytes))

/-- Outcome of the post-read-loop checks of one shard: the failures recorded
in order, and whether the shard loop is aborted (`return false`). -/
structure ShardCheckOutcome where
  failures : List ShardFailure
  abortShardLoop : Bool
deriving DecidableEq

/-- The tail of the per-shard work in `checkDataConsistency`
(lines 928-983): the quiescent estimator loop, then the statistical size
check, then the quiescent bounds check.  Only the bounds check returns
`false` out of the shard loop; the statistical check just records its
failure and falls through. -/
def shardCheckTail (performQuiescentChecks : Bool) (sampledBytes : Int)
    (estimatedBytes : List Int) (sampledKeys : Nat) (shardBytes : Int) (stdDev : ℚ)
    (canSplit beginInSystemKeyspace : Bool) (firstKeySampledBytes : Int)
    (bounds : ShardSizeBounds) : ShardCheckOutcome :=
  let estFailures :=
    if performQuiescentChecks then (estimatedBytesCheck sampledBytes estimatedBytes).toList
    else []
  let statFailures :=
    if inaccurateEstimateCheck sampledKeys shardBytes sampledBytes stdDev then
      [ShardFailure.inaccurateShardEstimate]
    else []
  let sizeViolation := invalidShardSizeCheck canSplit sampledKeys performQuiescentChecks
    beginInSystemKeyspace sampledBytes firstKeySampledBytes bounds
  let sizeFailures := if sizeViolation then [ShardFailure.invalidShardSize] else []
  ⟨estFailures ++ statFailures ++ sizeFailures, sizeViolation⟩

theorem estimatedBytesCheck_ne_inaccurate (sampledBytes : Int) (es : List Int) :
    estimatedBytesCheck sampledBytes es ≠ some .inaccurateShardEstimate := by
  induction es with
  | nil => simp [estimatedBytesCheck]
  | cons e rest ih =>
      rw [estimatedBytesCheck]
      by_cases h1 : 0 ≤ e ∧ e ≠ sampledBytes
      · simp [h1]
      · by_cases h2 : e < 0
        · simp [h1, h2]
        · simpa [h1, h2] using ih

/-- C6.  The statistical size check records its failure exactly when
`sampledKeys > 30` and `estimateError > 7 · stdDev`; a shard with at most 30
sampled keys never records it, whatever the error; and the check never
aborts the shard loop — the abort flag of the tail is exactly the bounds
check's condition. -/
theorem c6_statistical_size_check :
    ∀ (performQuiescentChecks : Bool) (sampledBytes : Int) (estimatedBytes : List Int)
      (sampledKeys : Nat) (shardBytes : Int) (stdDev : ℚ)
      (canSplit beginInSystemKeyspace : Bool) (firstKeySampledBytes : Int)
      (bounds : ShardSizeBounds),
    (ShardFailure.inaccurateShardEstimate ∈
        (shardCheckTail performQuiescentChecks sampledBytes estimatedBytes sampledKeys
          shardBytes stdDev canSplit beginInSystemKeyspace firstKeySampledBytes
          bounds).failures
      ↔ 30 < sampledKeys
          ∧ failErrorNumStdDev * stdDev < (estimateError shardBytes sampledBytes : ℚ))
    ∧ (sampledKeys ≤ 30 →
        ShardFailure.inaccurateShardEstimate ∉
          (shardCheckTail performQuiescentChecks sampledBytes estimatedBytes sampledKeys
            shardBytes stdDev canSplit beginInSystemKeyspace firstKeySampledBytes
            bounds).failures)
    ∧ (shardCheckTail performQuiescentChecks sampledBytes estimatedBytes sampledKeys
          shardBytes stdDev canSplit beginInSystemKeyspace firstKeySampledBytes
          bounds).abortShardLoop
        = invalidShardSizeCheck canSplit sampledKeys performQuiescentChecks
            beginInSystemKeyspace sampledBytes firstKeySampledBytes bounds := by
  intro performQuiescentChecks sampledBytes estimatedBytes sampledKeys shardBytes stdDev
    canSplit beginInSystemKeyspace firstKeySampledBytes bounds
  have hmem : ShardFailure.inaccurateShardEstimate ∈
      (shardCheckTail performQuiescentChecks sampledBytes estimatedBytes sampledKeys
        shardBytes stdDev canSplit beginInSystemKeyspace firstKeySampledBytes
        bounds).failures
    ↔ inaccurateEstimateCheck sampledKeys shardBytes sampledBytes stdDev = true := by
    rw [shardCheckTail]
    simp only [List.mem_append]
    constructor
    · rintro ((h | h) | h)
      · by_cases hq : performQuiescentChecks = true
        · rw [if_pos hq] at h
          rcases Option.mem_toList.mp (by simpa using h) with hmem
          exact absurd hmem (estimatedBytesCheck_ne_inaccurate sampledBytes estimatedBytes)
        · rw [if_neg hq] at h
          simp at h
      · by_cases hc : inaccurateEstimateCheck sampledKeys shardBytes sampledBytes stdDev = true
        · exact hc
        · rw [if_neg hc] at h
          simp at h
      · by_cases hs : invalidShardSizeCheck canSplit sampledKeys performQuiescentChecks
            beginInSystemKeyspace sampledBytes firstKeySampledBytes bounds = true
        · rw [if_pos hs] at h
          simp at h
        · rw [if_neg hs] at h
          simp at h
    · intro hc
      exact Or.inl (Or.inr (by rw [if_pos hc]; simp))
  refine ⟨?_, ?_, by rw [shardCheckTail]⟩
  · rw [hmem, inaccurateEstimateCheck]
    simp
  · intro hle h
    rcases (hmem.mp h) with hc
    rw [inaccurateEstimateCheck] at hc
    simp only [Bool.and_eq_true, decide_eq_true_eq] at hc
    omega

/-- Witness: C6 at a concrete shard — 31 sampled keys, error 8 against
`7 · stdDev = 7`, so the failure is recorded, and a shard with 30 keys and
the same error records nothing; neither aborts the loop when the bounds
check is off. -/
theorem c6_statistical_size_check_witness :
    (ShardFailure.inaccurateShardEstimate ∈
        (shardCheckTail true 0 [] 31 8 1 false false 0 ⟨0, 0, 0⟩).failures
      ↔ 30 < 31 ∧ failErrorNumStdDev * 1 < (estimateError 8 0 : ℚ))
    ∧ ShardFailure.inaccurateShardEstimate ∉
        (shardCheckTail true 0 [] 30 8 1 false false 0 ⟨0, 0, 0⟩).failures :=
  ⟨(c6_statistical_size_check true 0 [] 31 8 1 false false 0 ⟨0, 0, 0⟩).1,
   (c6_statistical_size_check true 0 [] 30 8 1 false false 0 ⟨0, 0, 0⟩).2.1 (by decide)⟩

/-- What the undesirable-servers check reads from one storage server:
its network address and the reply of `getKeyValueStoreType` (`none` when the
server did not reply). -/
structure StorageServerInfo where
  address : Nat
  storeType : Option Nat
deriving DecidableEq

/-- The failures `checkForUndesirableServers` can record (lines 1014-1052). -/
inductive UndesirableFailure where
  | storageServerUnavailable   -- "Storage server unavailable" (line 1029)
  | wrongStoreType             -- "Storage server has wrong key-value store type" (line 1034)
  | duplicateAddress           -- "Multiple storage servers have the same address" (line 1045)
deriving DecidableEq

/-- `checkForUndesirableServers` (lines 1014-1052), one recursive step per
outer index `i`; the suffix plays the role of the indices after `i`, so the
inner `j` loop is a scan of the suffix for an address match.  The result is
the returned boolean paired with the failures recorded in order: a missing
store-type reply records a failure but keeps scanning; a wrong store type or
a duplicate address records its failure and returns `true` at once. -/
def checkForUndesirableServers (desiredStoreType : Nat) :
    List StorageServerInfo → List UndesirableFailure → Bool × List UndesirableFailure
  | [], failures => (false, failures)
  | s :: rest, failures =>
      match s.storeType with
      | none =>
          let failures := failures ++ [UndesirableFailure.storageServerUnavailable]
          if rest.any fun t => decide (t.address = s.address) then
            (true, failures ++ [UndesirableFailure.duplicateAddress])
          else checkForUndesirableServers desiredStoreType rest failures
      | some storeType =>
          if storeType ≠ desiredStoreType then
            (true, failures ++ [UndesirableFailure.wrongStoreType])
          else if rest.any fun t => decide (t.address = s.address) then
            (true, failures ++ [UndesirableFailure.duplicateAddress])
          else checkForUndesirableServers desiredStoreType rest failures

/-- The `attribute_not_found` handler of the storage-queue read
(lines 227-239): "Could not read storage queue size" is recorded iff
`hasUndesirableServers` (the boolean returned by
`checkForUndesirableServers`, line 199) is false. -/
def storageQueueFailureRecorded (hasUndesirableServers : Bool) : Bool :=
  !hasUndesirableServers

theorem checkForUndesirableServers_true_iff (desiredStoreType : Nat)
    (servers : List StorageServerInfo) (acc : List UndesirableFailure) :
    (checkForUndesirableServers desiredStoreType servers acc).1 = true ↔
      (∃ s ∈ servers, ∃ t, s.storeType = some t ∧ t ≠ desiredStoreType)
        ∨ ¬ (servers.map StorageServerInfo.address).Nodup := by
  induction servers generalizing acc with
  | nil => simp [checkForUndesirableServers]
  | cons s rest ih =>
      have hdup : (rest.any fun t => decide (t.address = s.address)) = true ↔
          s.address ∈ rest.map StorageServerInfo.address := by
        simp [List.any_eq_true, List.mem_map]
      have hnodup : (List.map StorageServerInfo.address (s :: rest)).Nodup ↔
          s.address ∉ rest.map StorageServerInfo.address
            ∧ (rest.map StorageServerInfo.address).Nodup := by
        simp [List.nodup_cons]
      match hst : s.storeType with
      | none =>
          rw [checkForUndesirableServers]
          simp only [hst]
          by_cases hd : (rest.any fun t => decide (t.address = s.address)) = true
          · rw [if_pos hd]
            simp only [true_iff]
            exact Or.inr (by rw [hnodup]; intro hc; exact hc.1 (hdup.mp hd))
          · rw [if_neg hd, ih]
            constructor
            · rintro (⟨t, ht, w, hw, hne⟩ | hnd)
              · exact Or.inl ⟨t, List.mem_cons_of_mem _ ht, w, hw, hne⟩
              · exact Or.inr (by rw [hnodup]; intro hc; exact hnd hc.2)
            · rintro (⟨t, ht, w, hw, hne⟩ | hnd)
              · rcases List.mem_cons.mp ht with h1 | h1
                · rw [h1, hst] at hw; exact absurd hw (by simp)
                · exact Or.inl ⟨t, h1, w, hw, hne⟩
              · refine Or.inr fun hc => hnd (hnodup.mpr ⟨?_, hc⟩)
                intro hmem
                exact hd (hdup.mpr hmem)
      | some storeType =>
          rw [checkForUndesirableServers]
          simp only [hst]
          by_cases hw : storeType ≠ desiredStoreType
          · rw [if_pos hw]
            simp only [true_iff]
            exact Or.inl ⟨s, by simp, storeType, hst, hw⟩
          · rw [if_neg hw]
            push_neg at hw
            by_cases hd : (rest.any fun t => decide (t.address = s.address)) = true
            · rw [if_pos hd]
              simp only [true_iff]
              exact Or.inr (by rw [hnodup]; intro hc; exact hc.1 (hdup.mp hd))
            · rw [if_neg hd, ih]
              constructor
              · rintro (⟨t, ht, w, hwt, hne⟩ | hnd)
                · exact Or.inl ⟨t, List.mem_cons_of_mem _ ht, w, hwt, hne⟩
                · exact Or.inr (by rw [hnodup]; intro hc; exact hnd hc.2)
              · rintro (⟨t, ht, w, hwt, hne⟩ | hnd)
                · rcases List.mem_cons.mp ht with h1 | h1
                  · rw [h1, hst] at hwt
                    injection hwt with hwt
                    exact absurd (hwt ▸ hw) hne
                  · exact Or.inl ⟨t, h1, w, hwt, hne⟩
                · refine Or.inr fun hc => hnd (hnodup.mpr ⟨?_, hc⟩)
                  intro hmem
                  exact hd (hdup.mpr hmem)

/-- C7 (amended).  The storage-queue read failure is suppressed exactly when
`checkForUndesirableServers` returned `true`, and that boolean is `true`
exactly when some storage server reports a store type other than the
configured one or two storage servers share an address — so a wrong store
type suppresses the failure just as a duplicate address does, while
unavailable-server failures alone never do. -/
theorem c7_queue_failure_suppression :
    (∀ hasUndesirableServers : Bool,
        storageQueueFailureRecorded hasUndesirableServers = !hasUndesirableServers)
    ∧ (∀ (desiredStoreType : Nat) (servers : List StorageServerInfo),
        (checkForUndesirableServers desiredStoreType servers []).1 = true ↔
          (∃ s ∈ servers, ∃ t, s.storeType = some t ∧ t ≠ desiredStoreType)
            ∨ ¬ (servers.map StorageServerInfo.address).Nodup) :=
  ⟨fun _ => rfl,
   fun desiredStoreType servers =>
     checkForUndesirableServers_true_iff desiredStoreType servers []⟩

/-- C7 counterexample.  One storage server with the wrong store type and no
duplicate addresses: the undesirable-servers check returns `true` without
any duplicate-address failure, and the storage-queue read failure is
suppressed — so the suppression condition is not exactly a prior
duplicate-address failure. -/
theorem c7_counterexample :
    checkForUndesirableServers 0 [⟨1, some 1⟩] []
        = (true, [UndesirableFailure.wrongStoreType])
    ∧ UndesirableFailure.duplicateAddress ∉
        (checkForUndesirableServers 0 [⟨1, some 1⟩] []).2
    ∧ storageQueueFailureRecorded (checkForUndesirableServers 0 [⟨1, some 1⟩] []).1
        = false := by
  refine ⟨by decide, by decide, by decide⟩

/-- The slice of the workload state the success verdict depends on.  In the
source, `success` is assigned exactly twice: `success = true` in the
constructor (line 85) and `success = false` in `testFailure` (line 144);
`check` returns it (lines 132-135). -/
structure WorkloadState where
  success : Bool
deriving DecidableEq

/-- An operation of the workload, abstracted to its effect on `success`:
either a `testFailure` call (the message is irrelevant to the verdict), or
any of the other operations, none of which assigns `success`. -/
inductive WorkloadOp where
  | recordFailure (message : Nat)
  | passive
deriving DecidableEq

/-- The freshly constructed workload (line 85). -/
def initialWorkloadState : WorkloadState := ⟨true⟩

/-- Effect of one operation on the state (line 144 for `testFailure`). -/
def applyOp (s : WorkloadState) : WorkloadOp → WorkloadState
  | .recordFailure _ => ⟨false⟩
  | .passive => s

/-- A run of the workload: the operations applied in order. -/
def runOps (s : WorkloadState) (ops : List WorkloadOp) : WorkloadState :=
  ops.foldl applyOp s

/-- `check` (lines 132-135): the reported verdict is the `success` flag. -/
def checkVerdict (s : WorkloadState) : Bool := s.success

theorem runOps_sticky_false (ops : List WorkloadOp) (s : WorkloadState)
    (h : s.success = false) : (runOps s ops).success = false := by
  induction ops generalizing s with
  | nil => exact h
  | cons op rest ih =>
      match op with
      | .recordFailure m => exact ih ⟨false⟩ rfl
      | .passive => exact ih s h

/-- C8.  The success flag is sticky-false: it starts `true`, every
`testFailure` sets it to `false`, no operation sets it back, and the final
verdict of a run is `true` exactly when the run recorded no failure. -/
theorem c8_success_sticky_false :
    initialWorkloadState.success = true
    ∧ (∀ (s : WorkloadState) (m : Nat), (applyOp s (.recordFailure m)).success = false)
    ∧ (∀ (ops : List WorkloadOp) (s : WorkloadState),
        s.success = false → (runOps s ops).success = false)
    ∧ (∀ ops : List WorkloadOp,
        checkVerdict (runOps initialWorkloadState ops) = true ↔
          ∀ m : Nat, WorkloadOp.recordFailure m ∉ ops) := by
  refine ⟨rfl, fun _ _ => rfl, runOps_sticky_false, fun ops => ?_⟩
  induction ops with
  | nil => simp [checkVerdict, runOps, initialWorkloadState]
  | cons op rest ih =>
      match op with
      | .recordFailure m =>
          constructor
          · intro h
            have : (runOps ⟨false⟩ rest).success = false := runOps_sticky_false rest ⟨false⟩ rfl
            rw [checkVerdict] at h
            rw [runOps] at h
            simp only [List.foldl_cons] at h
            rw [show applyOp initialWorkloadState (.recordFailure m) = ⟨false⟩ from rfl] at h
            rw [show (List.foldl applyOp ⟨false⟩ rest) = runOps ⟨false⟩ rest from rfl] at h
            rw [this] at h
            exact absurd h (by simp)
          · intro h
            exact (h m (by simp)).elim
      | .passive =>
          rw [show checkVerdict (runOps initialWorkloadState (WorkloadOp.passive :: rest))
              = checkVerdict (runOps initialWorkloadState rest) from rfl]
          rw [ih]
          constructor
          · intro h m hm
            rcases List.mem_cons.mp hm with h1 | h1
            · exact absurd h1 (by simp)
            · exact h m h1
          · intro h m hm
            exact h m (List.mem_cons_of_mem _ hm)

/-- Witness: the C8 sticky conjunct applied at a concrete failed state and
run. -/
theorem c8_success_sticky_false_witness :
    (runOps ⟨false⟩ [WorkloadOp.passive, WorkloadOp.recordFailure 3]).success = false :=
  c8_success_sticky_false.2.2.1 [WorkloadOp.passive, WorkloadOp.recordFailure 3] ⟨false⟩ rfl

/-- An error code of the client library (`Error::code()`). -/
abbrev ErrorCode := Nat

/-- What a catch handler of a retry loop does with an error: start the next
loop iteration, or rethrow it to the caller. -/
inductive LoopAction where
  | retryLoop
  | rethrow (e : ErrorCode)
deriving DecidableEq

/-- The catch handler of `getVersion` (lines 299-302): `tr.onError(e);`
builds the backoff future but discards it unawaited and nothing rethrows,
so every error — inside or outside the retryable set — just starts the next
iteration with a fresh transaction. -/
def getVersionOnError (e : ErrorCode) : LoopAction := LoopAction.retryLoop

/-- How a run of a retry loop can end: with a returned read version, with a
propagated error, or still looping after the modelled attempts ran out. -/
inductive RunOutcome where
  | returned (v : Int)
  | raised (e : ErrorCode)
  | looping
deriving DecidableEq

/-- A retry loop over the outcomes of successive `getReadVersion` attempts
(lines 290-303): a successful attempt returns its version; a failing
attempt is given to the handler, which either continues the loop or
propagates the error. -/
def runRetryLoop (handler : ErrorCode → LoopAction) :
    List (Except ErrorCode Int) → RunOutcome
  | [] => .looping
  | .ok v :: _ => .returned v
  | .error e :: rest =>
      match handler e with
      | .retryLoop => runRetryLoop handler rest
      | .rethrow e' => .raised e'

/-- `getVersion` (lines 288-304) as the retry loop with its own handler. -/
def getVersionRun (attempts : List (Except ErrorCode Int)) : RunOutcome :=
  runRetryLoop getVersionOnError attempts

/-- C9.  `getVersion` never propagates an error: its handler retries on
every error code, no run of it ends in a raised error, and the only way a
run completes is by returning the version of a successful attempt. -/
theorem c9_getVersion_never_raises :
    (∀ e : ErrorCode, getVersionOnError e = LoopAction.retryLoop)
    ∧ (∀ (attempts : List (Except ErrorCode Int)) (e : ErrorCode),
        getVersionRun attempts ≠ .raised e)
    ∧ (∀ (attempts : List (Except ErrorCode Int)) (v : Int),
        getVersionRun attempts = .returned v → Except.ok v ∈ attempts) := by
  refine ⟨fun _ => rfl, fun attempts => ?_, fun attempts => ?_⟩
  · induction attempts with
    | nil => intro e; simp [getVersionRun, runRetryLoop]
    | cons a rest ih =>
        intro e
        match a with
        | .ok v => simp [getVersionRun, runRetryLoop]
        | .error e' => exact ih e
  · induction attempts with
    | nil => intro v h; exact absurd h (by simp [getVersionRun, runRetryLoop])
    | cons a rest ih =>
        intro v h
        match a with
        | .ok w =>
            rw [getVersionRun, runRetryLoop] at h
            injection h with h
            exact h ▸ List.mem_cons_self _ _
        | .error e' => exact List.mem_cons_of_mem _ (ih v h)

/-- Witness: C9 at a concrete attempt list that fails twice (once with a
retryable code, once with an arbitrary one) and then succeeds. -/
theorem c9_getVersion_never_raises_witness :
    getVersionRun [Except.error 1007, Except.error 42, Except.ok 7] = .returned 7
    ∧ Except.ok 7 ∈ [Except.error 1007, Except.error 42, Except.ok (7 : Int)] :=
  ⟨by decide,
   c9_getVersion_never_raises.2.2 [Except.error 1007, Except.error 42, Except.ok 7] 7
     (by decide)⟩

/-- The clamped option of line 79:
`shardSampleFactor = std::max(getOption(options, "shardSampleFactor", 1), 1)`. -/
def effectiveShardSampleFactor (configured : Int) : Int := max configured 1

/-- `effectiveClientCount` (line 573). -/
def effectiveClientCount (distributed : Bool) (clientCount : Int) : Int :=
  if distributed then clientCount else 1

/-- The first shard index of a client (line 574):
`i = clientId * (shardSampleFactor + 1)`. -/
def shardLoopStart (clientId shardSampleFactor : Int) : Int :=
  clientId * (shardSampleFactor + 1)

/-- The shard-loop increment (line 575): `effectiveClientCount *
shardSampleFactor` for a non-first client of a distributed check, else 1. -/
def shardLoopIncrement (distributed firstClient : Bool)
    (clientCount shardSampleFactor : Int) : Int :=
  if distributed && !firstClient then
    effectiveClientCount distributed clientCount * shardSampleFactor
  else 1

/-- C10 (amended).  For every configured value of the option, zero and
negative included, the effective factor is `max(configured, 1)` and hence at
least 1; the start index `c · (factor + 1)` is at least 1 for every
non-first client but 0 for the first client (`c = 0`); the increment is at
least 1 whenever there is at least one client; and therefore the shard loop
always advances. -/
theorem c10_shard_sample_factor_clamped :
    ∀ (configured clientId clientCount : Int) (distributed firstClient : Bool),
    effectiveShardSampleFactor configured = max configured 1
    ∧ 1 ≤ effectiveShardSampleFactor configured
    ∧ (1 ≤ clientId →
        1 ≤ shardLoopStart clientId (effectiveShardSampleFactor configured))
    ∧ shardLoopStart 0 (effectiveShardSampleFactor configured) = 0
    ∧ (1 ≤ clientCount →
        1 ≤ shardLoopIncrement distributed firstClient clientCount
              (effectiveShardSampleFactor configured))
    ∧ (1 ≤ clientCount → ∀ i : Int,
        i < i + shardLoopIncrement distributed firstClient clientCount
              (effectiveShardSampleFactor configured)) := by
  intro configured clientId clientCount distributed firstClient
  have hf : 1 ≤ effectiveShardSampleFactor configured := le_max_right configured 1
  have hinc : 1 ≤ clientCount →
      1 ≤ shardLoopIncrement distributed firstClient clientCount
            (effectiveShardSampleFactor configured) := by
    intro hcc
    rw [shardLoopIncrement]
    by_cases hd : (distributed && !firstClient) = true
    · have hd' := (Bool.and_eq_true _ _).mp hd
      rw [if_pos hd]
      rw [effectiveClientCount, if_pos hd'.1]
      nlinarith
    · rw [if_neg hd]
  refine ⟨rfl, hf, ?_, by rw [shardLoopStart]; ring, hinc, fun hcc i => ?_⟩
  · intro hc
    rw [shardLoopStart]
    nlinarith
  · have := hinc hcc
    omega

/-- Witness: C10 at client 1 of a 2-client distributed run with the option
configured to 0. -/
theorem c10_shard_sample_factor_clamped_witness :
    1 ≤ shardLoopStart 1 (effectiveShardSampleFactor 0)
    ∧ 1 ≤ shardLoopIncrement true false 2 (effectiveShardSampleFactor 0) :=
  ⟨(c10_shard_sample_factor_clamped 0 1 2 true false).2.2.1 (by decide),
   (c10_shard_sample_factor_clamped 0 1 2 true false).2.2.2.2.1 (by decide)⟩

/-- C10 counterexample.  The first client (`clientId = 0`) starts the shard
loop at index `0 · (shardSampleFactor + 1) = 0`, so the claim's "the shard
index start … [is] always at least 1" fails as stated. -/
theorem c10_counterexample :
    shardLoopStart 0 (effectiveShardSampleFactor 5) = 0
    ∧ ¬ 1 ≤ shardLoopStart 0 (effectiveShardSampleFactor 5) := by
  refine ⟨by decide, by decide⟩

/-- The decoded `keyServersValue` of one shard (line 613): the source and
destination team, as lists of storage-server UIDs. -/
structure ShardAssignment where
  sourceServers : List Nat
  destServers : List Nat
deriving DecidableEq

/-- What the team-size block decides for one shard: abort the whole data
check with the "Invalid team size" failure (lines 630-635), or proceed with
the storage servers the shard will be checked against (line 637). -/
inductive ShardHeaderStep where
  | abortInvalidTeamSize
  | proceed (storageServers : List Nat)
deriving DecidableEq

/-- Lines 613-637 of `checkDataConsistency` for one shard: compute
`isRelocating` (line 616), apply the quiescent team-size check of line 630
— whose condition reads only `firstClient`, `performQuiescentChecks` and
`sourceStorageServers.size()` — and otherwise choose the destination team
iff relocating. -/
def shardHeaderStep (firstClient performQuiescentChecks : Bool)
    (storageTeamSize : Nat) (a : ShardAssignment) : ShardHeaderStep :=
  let isRelocating := decide (0 < a.destServers.length)
  if firstClient && performQuiescentChecks
      && decide (a.sourceServers.length ≠ storageTeamSize) then
    .abortInvalidTeamSize
  else
    .proceed (if isRelocating then a.destServers else a.sourceServers)

/-- C1 (amended).  In a quiescent run the first client records "Invalid team
size" and aborts the data check for every shard whose source team size
differs from `configuration.storageTeamSize`, whether or not the shard is
relocating: the condition does not consult the destination team, and a
shard that passes it proceeds against its destination team iff relocating. -/
theorem c1_team_size_check :
    ∀ (firstClient performQuiescentChecks : Bool) (storageTeamSize : Nat)
      (a : ShardAssignment),
    (shardHeaderStep firstClient performQuiescentChecks storageTeamSize a
        = .abortInvalidTeamSize ↔
      firstClient = true ∧ performQuiescentChecks = true
        ∧ a.sourceServers.length ≠ storageTeamSize)
    ∧ (firstClient = true → performQuiescentChecks = true →
        a.sourceServers.length = storageTeamSize →
          shardHeaderStep firstClient performQuiescentChecks storageTeamSize a
            = .proceed (if 0 < a.destServers.length then a.destServers
                else a.sourceServers)) := by
  intro firstClient performQuiescentChecks storageTeamSize a
  constructor
  · rw [shardHeaderStep]
    by_cases hc : (firstClient && performQuiescentChecks
        && decide (a.sourceServers.length ≠ storageTeamSize)) = true
    · rw [if_pos hc]
      simp only [Bool.and_eq_true, decide_eq_true_eq] at hc
      simp [hc.1.1, hc.1.2, hc.2]
    · rw [if_neg hc]
      simp only [Bool.and_eq_true, decide_eq_true_eq, not_and] at hc
      constructor
      · intro h; exact absurd h (by simp)
      · rintro ⟨h1, h2, h3⟩; exact absurd h3 (hc ⟨h1, h2⟩)
  · intro h1 h2 h3
    rw [shardHeaderStep, if_neg (by simp [h3])]
    by_cases hd : 0 < a.destServers.length
    · simp [hd]
    · simp [hd]

/-- Witness: C1 (amended) at a concrete non-relocating shard of the wrong
team size in a quiescent first-client run. -/
theorem c1_team_size_check_witness :
    shardHeaderStep true true 3 ⟨[7], []⟩ = .abortInvalidTeamSize :=
  (c1_team_size_check true true 3 ⟨[7], []⟩).1.mpr ⟨rfl, rfl, by decide⟩

/-- C1 counterexample.  A relocating shard (destination team non-empty)
whose source team size differs from the configured team size still records
"Invalid team size" and aborts — the relocation exemption the claim states
does not exist in the code. -/
theorem c1_counterexample :
    0 < (ShardAssignment.mk [7] [8, 9]).destServers.length
    ∧ shardHeaderStep true true 3 ⟨[7], [8, 9]⟩ = .abortInvalidTeamSize := by
  refine ⟨by decide, by decide⟩

end CCheck
